import Mathlib

/-!
Verification of the Telemachus UK-meetings indexing and query engine.

This file gives a shallow embedding, in Lean 4, of the record-indexing and
query-resolution logic of the repository (src/build_uk_index.py,
src/eu_lobbying_core.py, src/app.py) and proves, or refutes, the frozen
claims about it.

Python strings are modelled as `List Char` (named `Str` below); Python
`dict`s used as counters are modelled as insertion-ordered association
lists, which is exactly the observable semantics of a Python 3.7+ dict.
Python functions that can raise are modelled in `Except PyError`.
-/

/-- Python strings, modelled as lists of characters. -/
abbrev Str := List Char

/-- Python `str.lower()` (per-character lowering). -/
def lowerStr (s : Str) : Str := s.map Char.toLower

/-- One step of Python `str.strip()`: drop leading whitespace. -/
def stripLeft (s : Str) : Str := s.dropWhile Char.isWhitespace

/-- Python `str.strip()`: drop leading and trailing whitespace. -/
def strip (s : Str) : Str := ((stripLeft s).reverse.dropWhile Char.isWhitespace).reverse

/-- Helper for `pyWords`: accumulate the current word (reversed) while scanning. -/
def pyWordsAux : Str → Str → List Str
  | cur, [] => if cur = [] then [] else [cur.reverse]
  | cur, c :: cs =>
    if c.isWhitespace then
      if cur = [] then pyWordsAux [] cs else cur.reverse :: pyWordsAux [] cs
    else
      pyWordsAux (c :: cur) cs

/-- Python `str.split()` with no argument: split on whitespace runs, no empty words. -/
def pyWords (s : Str) : List Str := pyWordsAux [] s

/-- Helper for `splitOnChar`: accumulate the current field (reversed) while scanning. -/
def splitOnCharAux (sep : Char) : Str → Str → List Str
  | cur, [] => [cur.reverse]
  | cur, c :: cs =>
    if c = sep then cur.reverse :: splitOnCharAux sep [] cs
    else splitOnCharAux sep (c :: cur) cs

/-- Python `str.split(sep)` for a one-character separator: keeps empty fields. -/
def splitOnChar (sep : Char) (s : Str) : List Str := splitOnCharAux sep [] s

/-- Python `needle in hay` substring test, as a Bool. -/
def strIn (needle hay : Str) : Bool := decide (needle <:+: hay)

/-- A normalized UK meeting record, as produced by
`download_and_parse_csv` and tagged by `build_index` (src/build_uk_index.py). -/
structure Meeting where
  minister : Str
  date : Str
  organisation : Str
  purpose : Str
  department : Str
  meetingType : Str
deriving DecidableEq, Repr

/-!
## C1 — `search_uk_index` matching vs. a linear substring scan

Source (src/eu_lobbying_core.py, lines 841-849): `search_uk_index` lowercases
the query term and keeps every meeting whose lowercased `organisation` field
contains it as a substring.  (Despite the snapshot carrying an `org_index`,
the search function never consults it: the fast path IS a linear scan.)
-/

/-- The matching loop of `search_uk_index` (src/eu_lobbying_core.py 841-849):
keep each meeting whose lowercased organisation contains the lowercased term. -/
def searchMatches (meetings : List Meeting) (term : Str) : List Meeting :=
  meetings.filter (fun m => strIn (lowerStr term) (lowerStr m.organisation))

/-- Modelled from the spec: "a full linear case-insensitive substring scan of
the term against each record's organisation name over the same snapshot". -/
def linearScanSpec (meetings : List Meeting) (term : Str) : List Meeting :=
  meetings.filter (fun m => strIn (lowerStr term) (lowerStr m.organisation))

/-!
## C2 — the inverted index built by `build_index`

Source (src/build_uk_index.py, lines 274-281): for each meeting position `i`,
lowercase the organisation name, split it on whitespace, and append `i` to
the postings list of every word longer than 2 characters.
-/

/-- The index tokens of one organisation name: whitespace-split words of the
lowercased name that are longer than 2 characters (src/build_uk_index.py 277-281). -/
def tokensOf (org : Str) : List Str :=
  (pyWords (lowerStr org)).filter (fun w => 2 < w.length)

/-- The (token, position) append events of the `org_index` loop, starting at
position `i` (src/build_uk_index.py 275-281). -/
def indexPairsAux (i : Nat) : List Str → List (Str × Nat)
  | [] => []
  | org :: rest => (tokensOf org).map (fun w => (w, i)) ++ indexPairsAux (i + 1) rest

/-- All (token, position) append events of the `org_index` loop over the
organisation names of the deduplicated meetings. -/
def indexPairs (orgs : List Str) : List (Str × Nat) := indexPairsAux 0 orgs

/-- The postings list of token `t` in the built `org_index`: the positions
appended for `t`, in order (defaultdict-append semantics). -/
def postings (orgs : List Str) (t : Str) : List Nat :=
  (indexPairs orgs).filterMap (fun p => if p.1 = t then some p.2 else none)

/-!
## C3 — first-seen deduplication

Source (src/build_uk_index.py, lines 259-267): a single pass with a `seen`
set of `(minister, date, organisation)` keys; a meeting is emitted iff its
key has not been seen before.
-/

/-- The deduplication key of a meeting (src/build_uk_index.py line 264). -/
def dkey (m : Meeting) : Str × Str × Str := (m.minister, m.date, m.organisation)

/-- Generic single-pass first-seen deduplication with an explicit seen set,
the shape of the loop at src/build_uk_index.py lines 260-267. -/
def dedupeByAux {α κ : Type} (key : α → κ) [DecidableEq κ] (seen : List κ) :
    List α → List α
  | [] => []
  | x :: rest =>
    if key x ∈ seen then dedupeByAux key seen rest
    else x :: dedupeByAux key (key x :: seen) rest

/-- Generic first-seen deduplication, starting from an empty seen set. -/
def dedupeBy {α κ : Type} (key : α → κ) [DecidableEq κ] (l : List α) : List α :=
  dedupeByAux key [] l

/-- The meeting deduplication pass of `build_index` (src/build_uk_index.py 259-267). -/
def dedupe (ms : List Meeting) : List Meeting := dedupeBy dkey ms

/-! Helper lemmas about `dedupeByAux`. -/

theorem dedupeByAux_sublist {α κ : Type} (key : α → κ) [DecidableEq κ] :
    ∀ (l : List α) (seen : List κ), (dedupeByAux key seen l).Sublist l := by
  intro l
  induction l with
  | nil => intro seen; simp [dedupeByAux]
  | cons x rest ih =>
    intro seen
    by_cases h : key x ∈ seen
    · simp only [dedupeByAux, if_pos h]
      exact (ih seen).cons x
    · simp only [dedupeByAux, if_neg h]
      exact (ih (key x :: seen)).cons₂ x

theorem mem_dedupeByAux_not_seen {α κ : Type} (key : α → κ) [DecidableEq κ] :
    ∀ (l : List α) (seen : List κ) (x : α),
      x ∈ dedupeByAux key seen l → key x ∉ seen := by
  intro l
  induction l with
  | nil => intro seen x hx; simp [dedupeByAux] at hx
  | cons y rest ih =>
    intro seen x hx
    by_cases h : key y ∈ seen
    · simp only [dedupeByAux, if_pos h] at hx
      exact ih seen x hx
    · simp only [dedupeByAux, if_neg h] at hx
      rcases List.mem_cons.mp hx with rfl | hx
      · exact h
      · have := ih (key y :: seen) x hx
        intro hs
        exact this (List.mem_cons_of_mem _ hs)

theorem dedupeByAux_keys_nodup {α κ : Type} (key : α → κ) [DecidableEq κ] :
    ∀ (l : List α) (seen : List κ), ((dedupeByAux key seen l).map key).Nodup := by
  intro l
  induction l with
  | nil => intro seen; simp [dedupeByAux]
  | cons y rest ih =>
    intro seen
    by_cases h : key y ∈ seen
    · simp only [dedupeByAux, if_pos h]
      exact ih seen
    · simp only [dedupeByAux, if_neg h, List.map_cons, List.nodup_cons]
      refine ⟨?_, ih (key y :: seen)⟩
      intro hmem
      rcases List.mem_map.mp hmem with ⟨z, hz, hkz⟩
      have := mem_dedupeByAux_not_seen key rest (key y :: seen) z hz
      exact this (by rw [hkz]; exact List.mem_cons_self _ _)

theorem dedupeByAux_covers {α κ : Type} (key : α → κ) [DecidableEq κ] :
    ∀ (l : List α) (seen : List κ) (x : α),
      x ∈ l → key x ∉ seen → key x ∈ (dedupeByAux key seen l).map key := by
  intro l
  induction l with
  | nil => intro seen x hx; simp at hx
  | cons y rest ih =>
    intro seen x hx hns
    rcases List.mem_cons.mp hx with rfl | hx
    · simp only [dedupeByAux, if_neg hns, List.map_cons]
      exact List.mem_cons_self _ _
    · by_cases h : key y ∈ seen
      · simp only [dedupeByAux, if_pos h]
        exact ih seen x hx hns
      · simp only [dedupeByAux, if_neg h, List.map_cons]
        by_cases hk : key x = key y
        · rw [hk]; exact List.mem_cons_self _ _
        · refine List.mem_cons_of_mem _ ?_
          exact ih (key y :: seen) x hx (by simp [hk, hns])

theorem dedupeByAux_first_occurrence {α κ : Type} (key : α → κ) [DecidableEq κ] :
    ∀ (l : List α) (seen : List κ) (x : α),
      x ∈ dedupeByAux key seen l →
      ∃ pre post, l = pre ++ x :: post ∧ ∀ y ∈ pre, key y ≠ key x := by
  intro l
  induction l with
  | nil => intro seen x hx; simp [dedupeByAux] at hx
  | cons y rest ih =>
    intro seen x hx
    by_cases h : key y ∈ seen
    · simp only [dedupeByAux, if_pos h] at hx
      rcases ih seen x hx with ⟨pre, post, heq, hpre⟩
      refine ⟨y :: pre, post, by simp [heq], ?_⟩
      intro z hz
      rcases List.mem_cons.mp hz with rfl | hz
      · have := mem_dedupeByAux_not_seen key rest seen x hx
        intro hk; rw [hk] at h; exact this h
      · exact hpre z hz
    · simp only [dedupeByAux, if_neg h] at hx
      rcases List.mem_cons.mp hx with rfl | hx
      · exact ⟨[], rest, rfl, by simp⟩
      · rcases ih (key y :: seen) x hx with ⟨pre, post, heq, hpre⟩
        refine ⟨y :: pre, post, by simp [heq], ?_⟩
        intro z hz
        rcases List.mem_cons.mp hz with rfl | hz
        · have := mem_dedupeByAux_not_seen key rest (key z :: seen) x hx
          intro hk; exact this (by rw [← hk]; exact List.mem_cons_self _ _)
        · exact hpre z hz

theorem length_filter_key_eq_one {α κ : Type} [DecidableEq κ] (f : α → κ) :
    ∀ l : List α, (l.map f).Nodup → ∀ k, k ∈ l.map f →
      (l.filter (fun x => decide (f x = k))).length = 1 := by
  intro l
  induction l with
  | nil => simp
  | cons x rest ih =>
    intro hnd k hk
    simp only [List.map_cons, List.nodup_cons] at hnd
    rcases List.mem_cons.mp hk with rfl | hk
    · have hz : rest.filter (fun y => decide (f y = f x)) = [] := by
        rw [List.filter_eq_nil_iff]
        intro a ha hdec
        exact hnd.1 (List.mem_map.mpr ⟨a, ha, (of_decide_eq_true hdec).symm ▸ rfl⟩)
      simp [List.filter_cons, hz]
    · have hne : f x ≠ k := fun h => hnd.1 (h ▸ hk)
      simp [List.filter_cons, hne, ih hnd.2 k hk]

theorem mem_indexPairsAux (t : Str) (p : Nat) :
    ∀ (orgs : List Str) (i : Nat),
      (t, p) ∈ indexPairsAux i orgs ↔
        ∃ j, j < orgs.length ∧ p = i + j ∧ t ∈ tokensOf (orgs.getD j []) := by
  intro orgs
  induction orgs with
  | nil => intro i; simp [indexPairsAux]
  | cons org rest ih =>
    intro i
    simp only [indexPairsAux, List.mem_append, List.mem_map, Prod.mk.injEq]
    constructor
    · rintro (⟨w, hw, rfl, rfl⟩ | h)
      · exact ⟨0, by simp, by simp, by simpa using hw⟩
      · rcases (ih (i + 1)).mp h with ⟨j, hj, hp, ht⟩
        exact ⟨j + 1, by simpa using hj, by omega, by simpa using ht⟩
    · rintro ⟨j, hj, rfl, ht⟩
      cases j with
      | zero => exact Or.inl ⟨t, by simpa using ht, rfl, by omega⟩
      | succ j =>
        refine Or.inr ((ih (i + 1)).mpr ⟨j, ?_, by omega, by simpa using ht⟩)
        simpa using hj

/-- C1 (confirmed): for every literal query term and every loaded snapshot, the
set of records matched by the fast path `search_uk_index` equals the set
returned by a full linear case-insensitive substring scan of the term against
each record's organisation name; a record is matched exactly when the
lowercased term is a substring of its lowercased organisation name. -/
theorem search_fast_path_eq_linear_scan (meetings : List Meeting) (term : Str) :
    searchMatches meetings term = linearScanSpec meetings term ∧
    ∀ m, m ∈ searchMatches meetings term ↔
      m ∈ meetings ∧ lowerStr term <:+: lowerStr m.organisation := by
  refine ⟨rfl, fun m => ?_⟩
  simp [searchMatches, strIn, List.mem_filter]

/-- A concrete meeting used in witnesses. -/
def mShell : Meeting :=
  ⟨"Minister A".toList, "01/02/2024".toList, "Shell UK".toList, [],
   "DeptX".toList, "ministerial".toList⟩

theorem search_fast_path_eq_linear_scan_witness :
    mShell ∈ searchMatches [mShell] "shell".toList ∧
    searchMatches [mShell] "shell".toList = linearScanSpec [mShell] "shell".toList :=
  ⟨((search_fast_path_eq_linear_scan [mShell] "shell".toList).2 mShell).mpr
      (by constructor <;> decide),
   (search_fast_path_eq_linear_scan [mShell] "shell".toList).1⟩

/-- C2 (confirmed): in the index built by `build_index`, position `p` appears
in the postings list of token `t` if and only if `p` is a valid record
position and `t` is a whitespace-delimited word of the lowercased
organisation name of record `p` of length greater than 2. -/
theorem uk_index_postings_correct (orgs : List Str) (t : Str) (p : Nat) :
    p ∈ postings orgs t ↔
      p < orgs.length ∧ t ∈ pyWords (lowerStr (orgs.getD p [])) ∧ 2 < t.length := by
  unfold postings indexPairs
  rw [List.mem_filterMap]
  constructor
  · rintro ⟨⟨t', p'⟩, hmem, hf⟩
    by_cases ht : t' = t
    · subst ht
      rw [if_pos rfl] at hf
      have hp : p' = p := Option.some.inj hf
      subst hp
      rcases (mem_indexPairsAux t' p' orgs 0).mp hmem with ⟨j, hj, hp, htok⟩
      have hj' : p' = j := by omega
      subst hj'
      unfold tokensOf at htok
      have h2 := List.mem_filter.mp htok
      exact ⟨hj, h2.1, of_decide_eq_true h2.2⟩
    · rw [if_neg ht] at hf
      exact absurd hf (by simp)
  · rintro ⟨hp, hw, hlen⟩
    refine ⟨(t, p), (mem_indexPairsAux t p orgs 0).mpr ⟨p, hp, by omega, ?_⟩, by simp⟩
    unfold tokensOf
    exact List.mem_filter.mpr ⟨hw, decide_eq_true hlen⟩

theorem uk_index_postings_correct_witness :
    0 ∈ postings ["Shell UK".toList] "shell".toList :=
  (uk_index_postings_correct ["Shell UK".toList] "shell".toList 0).mpr
    ⟨by decide, by decide, by decide⟩

/-- C3 (confirmed): deduplication emits a subsequence of its input (first-seen
order preserved) whose `(minister, date, organisation)` keys are pairwise
distinct; every input key is represented; each emitted record is the first
record of the input with its key; and each key occurring in the input has
exactly one representative in the output. -/
theorem dedupe_first_seen_unique (ms : List Meeting) :
    (dedupe ms).Sublist ms ∧
    ((dedupe ms).map dkey).Nodup ∧
    (∀ m ∈ ms, dkey m ∈ (dedupe ms).map dkey) ∧
    (∀ m ∈ dedupe ms, ∃ pre post, ms = pre ++ m :: post ∧
        ∀ m2 ∈ pre, dkey m2 ≠ dkey m) ∧
    (∀ k ∈ ms.map dkey,
      ((dedupe ms).filter (fun m => decide (dkey m = k))).length = 1) := by
  refine ⟨dedupeByAux_sublist dkey ms [], dedupeByAux_keys_nodup dkey ms [],
    fun m hm => dedupeByAux_covers dkey ms [] m hm (by simp),
    fun m hm => dedupeByAux_first_occurrence dkey ms [] m hm, fun k hk => ?_⟩
  have hnd : ((dedupe ms).map dkey).Nodup := dedupeByAux_keys_nodup dkey ms []
  rcases List.mem_map.mp hk with ⟨m, hm, rfl⟩
  have hmem : dkey m ∈ (dedupe ms).map dkey :=
    dedupeByAux_covers dkey ms [] m hm (by simp)
  exact length_filter_key_eq_one dkey (dedupe ms) hnd (dkey m) hmem

/-- Two meetings with the same dedupe key originating from different source
documents (different department tag), and an unrelated third meeting. -/
def mShellDeptY : Meeting :=
  ⟨"Minister A".toList, "01/02/2024".toList, "Shell UK".toList, [],
   "DeptY".toList, "senior_officials".toList⟩

def mOther : Meeting :=
  ⟨"Minister B".toList, "02/02/2024".toList, "BP International".toList, [],
   "DeptX".toList, "ministerial".toList⟩

theorem dedupe_first_seen_unique_witness :
    ((dedupe [mShell, mOther, mShellDeptY]).filter
      (fun m => decide (dkey m = dkey mShell))).length = 1 :=
  (dedupe_first_seen_unique [mShell, mOther, mShellDeptY]).2.2.2.2
    (dkey mShell) (by decide)

/-!
## Aggregation: `by_minister`, `by_department`, `by_year`

Source (src/eu_lobbying_core.py, lines 855-889).  The three counters are
Python dicts updated with `d[k] = d.get(k, 0) + 1`; `by_minister` and
`by_department` are then sorted with `key=lambda x: -x[1]` (stable,
descending by count) and `by_year` with `key=lambda x: x[0], reverse=True`
(descending by YEAR KEY, not by count).
-/

/-- Year extraction of `search_uk_index` (src/eu_lobbying_core.py 868-874). -/
def extractYear (date : Str) : Str :=
  if date.contains '/' then
    let parts := splitOnChar '/' date
    if 2 < parts.length ∧ (parts.getD 2 []).length = 4 then parts.getD 2 []
    else if (parts.getD 0 []).length = 4 then parts.getD 0 []
    else []
  else if date.contains '-' then date.take 4
  else []

/-- One `d[k] = d.get(k, 0) + 1` update on an insertion-ordered counter dict. -/
def bump : List (Str × Nat) → Str → List (Str × Nat)
  | [], k => [(k, 1)]
  | (k2, n) :: rest, k =>
    if k2 = k then (k2, n + 1) :: rest else (k2, n) :: bump rest k

/-- Fold a stream of keys into an insertion-ordered counter dict. -/
def keysDict (ks : List Str) : List (Str × Nat) := ks.foldl bump []

/-- The `by_minister` counter (src/eu_lobbying_core.py 861, 865). -/
def byMinisterDict (ms : List Meeting) : List (Str × Nat) :=
  keysDict (ms.map (fun m => m.minister))

/-- The `by_department` counter (src/eu_lobbying_core.py 862, 866). -/
def byDepartmentDict (ms : List Meeting) : List (Str × Nat) :=
  keysDict (ms.map (fun m => m.department))

/-- The `by_year` counter with its `if year:` guard
(src/eu_lobbying_core.py 868-876). -/
def byYearDict (ms : List Meeting) : List (Str × Nat) :=
  keysDict ((ms.map (fun m => extractYear m.date)).filter (fun y => !y.isEmpty))

/-- Python `d.get(k, 0)` on a counter dict. -/
def lookupCount (d : List (Str × Nat)) (k : Str) : Nat :=
  match d.find? (fun p => decide (p.1 = k)) with
  | some p => p.2
  | none => 0

/-- `sorted(d.items(), key=lambda x: -x[1])`: stable, descending by count. -/
def sortByCountDesc (d : List (Str × Nat)) : List (Str × Nat) :=
  d.insertionSort (fun a b => b.2 ≤ a.2)

/-- Lexicographic comparison of Python strings (by code point). -/
def strLe : Str → Str → Bool
  | [], _ => true
  | _ :: _, [] => false
  | a :: as, b :: bs => if a < b then true else if b < a then false else strLe as bs

/-- `sorted(d.items(), key=lambda x: x[0], reverse=True)`: descending by key
(keys of a counter dict are distinct, so stability is moot). -/
def sortByKeyDesc (d : List (Str × Nat)) : List (Str × Nat) :=
  d.insertionSort (fun a b => strLe b.1 a.1 = true)

/-- The result dictionary assembled by `search_uk_index`
(src/eu_lobbying_core.py 878-889); fields not relevant to the claims
(`data_coverage`, `index_date`, `note`) are omitted. -/
structure SearchResult where
  searchTerm : Str
  meetings : List Meeting
  meetingsCount : Nat
  byMinister : List (Str × Nat)
  byDepartment : List (Str × Nat)
  byYear : List (Str × Nat)
deriving DecidableEq, Repr

/-- Assembly of the result of `search_uk_index` from the matched records
(src/eu_lobbying_core.py 855-889). -/
def buildResult (term : Str) (found : List Meeting) : SearchResult :=
  { searchTerm := term
    meetings := found
    meetingsCount := found.length
    byMinister := sortByCountDesc (byMinisterDict found)
    byDepartment := sortByCountDesc (byDepartmentDict found)
    byYear := sortByKeyDesc (byYearDict found) }

/-! Helper lemmas about counter dicts. -/

theorem lookupCount_nil (k2 : Str) : lookupCount [] k2 = 0 := rfl

theorem lookupCount_cons (a : Str) (b : Nat) (rest : List (Str × Nat)) (k2 : Str) :
    lookupCount ((a, b) :: rest) k2 = if a = k2 then b else lookupCount rest k2 := by
  by_cases h : a = k2 <;> simp [lookupCount, List.find?, h]

theorem lookupCount_bump (d : List (Str × Nat)) (k k2 : Str) :
    lookupCount (bump d k) k2 = lookupCount d k2 + (if k2 = k then 1 else 0) := by
  induction d with
  | nil =>
    by_cases h : k2 = k
    · subst h; simp [bump, lookupCount_cons, lookupCount_nil]
    · simp [bump, lookupCount_cons, lookupCount_nil, Ne.symm h, h]
  | cons p rest ih =>
    obtain ⟨k3, n⟩ := p
    by_cases h3 : k3 = k
    · subst h3
      rw [bump, if_pos rfl]
      by_cases h2 : k2 = k3
      · subst h2; simp [lookupCount_cons]
      · simp [lookupCount_cons, Ne.symm h2, h2]
    · rw [bump, if_neg h3]
      by_cases h2 : k2 = k3
      · subst h2
        simp [lookupCount_cons, h3]
      · simp [lookupCount_cons, Ne.symm h2, ih]

theorem keys_bump (d : List (Str × Nat)) (k : Str) :
    (bump d k).map Prod.fst =
      if k ∈ d.map Prod.fst then d.map Prod.fst else d.map Prod.fst ++ [k] := by
  induction d with
  | nil => simp [bump]
  | cons p rest ih =>
    obtain ⟨k3, n⟩ := p
    by_cases h3 : k3 = k
    · subst h3
      simp [bump]
    · have : (k ∈ k3 :: rest.map Prod.fst) ↔ k ∈ rest.map Prod.fst := by
        simp [Ne.symm h3]
      by_cases hk : k ∈ rest.map Prod.fst
      · simp [bump, if_neg h3, ih, hk, this]
      · simp [bump, if_neg h3, ih, hk, this]

theorem dedupeByAux_congr_seen {α κ : Type} (key : α → κ) [DecidableEq κ] :
    ∀ (l : List α) (seen seen2 : List κ), (∀ a, a ∈ seen ↔ a ∈ seen2) →
      dedupeByAux key seen l = dedupeByAux key seen2 l := by
  intro l
  induction l with
  | nil => intro seen seen2 _; rfl
  | cons x rest ih =>
    intro seen seen2 hiff
    by_cases h : key x ∈ seen
    · rw [dedupeByAux, if_pos h, dedupeByAux, if_pos ((hiff _).mp h)]
      exact ih seen seen2 hiff
    · rw [dedupeByAux, if_neg h, dedupeByAux, if_neg (fun hc => h ((hiff _).mpr hc))]
      refine congrArg _ (ih _ _ ?_)
      intro a
      simp [hiff a]

theorem lookupCount_foldl_bump (k : Str) :
    ∀ (ks : List Str) (d : List (Str × Nat)),
      lookupCount (ks.foldl bump d) k =
        lookupCount d k + ks.countP (fun s => decide (s = k)) := by
  intro ks
  induction ks with
  | nil => intro d; simp
  | cons k0 rest ih =>
    intro d
    rw [List.foldl_cons, ih (bump d k0), lookupCount_bump, List.countP_cons]
    by_cases h : k0 = k
    · simp [h]
      omega
    · simp [h, Ne.symm h]

/-- The count stored for `k` in a counter dict is the number of occurrences
of `k` in the key stream. -/
theorem lookupCount_keysDict (ks : List Str) (k : Str) :
    lookupCount (keysDict ks) k = ks.countP (fun s => decide (s = k)) := by
  rw [keysDict, lookupCount_foldl_bump]
  simp [lookupCount]

theorem keys_foldl_bump :
    ∀ (ks : List Str) (d : List (Str × Nat)),
      (ks.foldl bump d).map Prod.fst =
        d.map Prod.fst ++ dedupeByAux id (d.map Prod.fst) ks := by
  intro ks
  induction ks with
  | nil => intro d; simp [dedupeByAux]
  | cons k0 rest ih =>
    intro d
    rw [List.foldl_cons, ih (bump d k0), keys_bump]
    by_cases h : k0 ∈ d.map Prod.fst
    · rw [if_pos h, dedupeByAux]
      simp only [id_eq, if_pos h]
    · rw [if_neg h, dedupeByAux]
      simp only [id_eq, if_neg h]
      rw [dedupeByAux_congr_seen id rest (d.map Prod.fst ++ [k0]) (k0 :: d.map Prod.fst)
        (by intro a; simp [or_comm])]
      simp

/-- The keys of a counter dict are the distinct keys of the key stream in
first-seen order. -/
theorem keys_keysDict (ks : List Str) :
    (keysDict ks).map Prod.fst = dedupeBy id ks := by
  rw [keysDict, keys_foldl_bump]
  rfl

/-! Helper lemmas about the stable sorts. -/

theorem strLe_total : ∀ s t : Str, strLe s t = true ∨ strLe t s = true := by
  intro s
  induction s with
  | nil => intro t; left; rfl
  | cons a as ih =>
    intro t
    cases t with
    | nil => right; rfl
    | cons b bs =>
      by_cases h1 : a < b
      · left; simp [strLe, h1]
      · by_cases h2 : b < a
        · right; simp [strLe, h2]
        · rcases ih bs with h | h
          · left; simp [strLe, h1, h2, h]
          · right; simp [strLe, h1, h2, h]

theorem strLe_trans :
    ∀ s t u : Str, strLe s t = true → strLe t u = true → strLe s u = true := by
  intro s
  induction s with
  | nil => intro t u _ _; rfl
  | cons a as ih =>
    intro t u hst htu
    cases t with
    | nil => simp [strLe] at hst
    | cons b bs =>
      cases u with
      | nil => simp [strLe] at htu
      | cons c cs =>
        by_cases hab : a < b
        · by_cases hbc : b < c
          · simp [strLe, lt_trans hab hbc]
          · by_cases hcb : c < b
            · simp [strLe, hbc, hcb] at htu
            · have hbc2 : b = c := le_antisymm (not_lt.mp hcb) (not_lt.mp hbc)
              subst hbc2
              simp [strLe, hab]
        · by_cases hba : b < a
          · simp [strLe, hab, hba] at hst
          · have hab2 : a = b := le_antisymm (not_lt.mp hba) (not_lt.mp hab)
            subst hab2
            simp only [strLe, if_neg (lt_irrefl a)] at hst
            by_cases hac : a < c
            · simp [strLe, hac]
            · by_cases hca : c < a
              · simp [strLe, hac, hca] at htu
              · simp only [strLe, if_neg hac, if_neg hca] at htu ⊢
                exact ih bs cs hst htu

/-- A stable sort does not reorder elements within one `p`-class, provided the
comparison never lets an element pass over one of the same class. -/
theorem filter_insertionSort {α : Type} (r : α → α → Prop) [DecidableRel r]
    (p : α → Bool) (hcompat : ∀ x y, p x = true → ¬ r x y → p y = false) :
    ∀ l : List α, (l.insertionSort r).filter p = l.filter p := by
  intro l
  induction l with
  | nil => rfl
  | cons x l ih =>
    simp only [List.insertionSort]
    rw [List.orderedInsert_eq_take_drop, List.filter_append]
    have hsplit :
        ((l.insertionSort r).takeWhile (fun b => decide (¬ r x b))).filter p ++
          ((l.insertionSort r).dropWhile (fun b => decide (¬ r x b))).filter p
          = l.filter p := by
      rw [← List.filter_append, List.takeWhile_append_dropWhile, ih]
    by_cases hp : p x = true
    · have h1 : ((l.insertionSort r).takeWhile
          (fun b => decide (¬ r x b))).filter p = [] := by
        rw [List.filter_eq_nil_iff]
        intro a ha hpa
        have h3 := @List.mem_takeWhile_imp _ (fun b => decide (¬ r x b))
          (l.insertionSort r) a ha
        have hna : ¬ r x a := of_decide_eq_true h3
        rw [hcompat x a hp hna] at hpa
        cases hpa
      rw [h1] at hsplit ⊢
      rw [List.nil_append] at hsplit
      rw [List.nil_append]
      simp only [List.filter_cons, hp, if_true]
      rw [hsplit]
    · have hp2 : p x = false := by
        cases h : p x
        · rfl
        · exact absurd h hp
      simp only [List.filter_cons, hp2, Bool.false_eq_true, if_false]
      exact hsplit

theorem chain_sortByCountDesc (d : List (Str × Nat)) :
    (sortByCountDesc d).Chain' (fun a b => b.2 ≤ a.2) := by
  haveI : IsTotal (Str × Nat) (fun a b => b.2 ≤ a.2) :=
    ⟨fun a b => Nat.le_total b.2 a.2⟩
  haveI : IsTrans (Str × Nat) (fun a b => b.2 ≤ a.2) :=
    ⟨fun _ _ _ hab hbc => le_trans hbc hab⟩
  exact List.Pairwise.chain' (List.sorted_insertionSort _ d)

theorem chain_sortByKeyDesc (d : List (Str × Nat)) :
    (sortByKeyDesc d).Chain' (fun a b => strLe b.1 a.1 = true) := by
  haveI : IsTotal (Str × Nat) (fun a b => strLe b.1 a.1 = true) :=
    ⟨fun a b => strLe_total b.1 a.1⟩
  haveI : IsTrans (Str × Nat) (fun a b => strLe b.1 a.1 = true) :=
    ⟨fun a b c hab hbc => strLe_trans c.1 b.1 a.1 hbc hab⟩
  exact List.Pairwise.chain' (List.sorted_insertionSort _ d)

theorem filter_sortByCountDesc (d : List (Str × Nat)) (n : Nat) :
    (sortByCountDesc d).filter (fun x => decide (x.2 = n)) =
      d.filter (fun x => decide (x.2 = n)) := by
  apply filter_insertionSort
  intro x y hx hr
  have hx2 : x.2 = n := of_decide_eq_true hx
  have hy : ¬ y.2 = n := by omega
  simp [hy]

/-! Date-format predicates and structural lemmas about `splitOnChar`. -/

/-- All characters are decimal digits. -/
def allDigits (s : Str) : Bool := s.all Char.isDigit

/-- The date is exactly `DD/MM/YYYY` (two digits, two digits, four digits). -/
def isDDMMYYYY (date : Str) : Bool :=
  match splitOnChar '/' date with
  | [d, m, y] => decide (d.length = 2) && decide (m.length = 2) &&
      decide (y.length = 4) && allDigits d && allDigits m && allDigits y
  | _ => false

/-- The date is exactly `YYYY-MM-DD` (four digits, two digits, two digits). -/
def isYYYYMMDD (date : Str) : Bool :=
  match splitOnChar '-' date with
  | [y, m, d] => decide (y.length = 4) && decide (m.length = 2) &&
      decide (d.length = 2) && allDigits y && allDigits m && allDigits d
  | _ => false

/-- Join fields with a separator character: the inverse of `splitOnChar`. -/
def joinSep (c : Char) : List Str → Str
  | [] => []
  | [p] => p
  | p :: ps => p ++ c :: joinSep c ps

theorem splitOnCharAux_ne_nil (c : Char) :
    ∀ (s cur : Str), splitOnCharAux c cur s ≠ [] := by
  intro s
  induction s with
  | nil => intro cur; simp [splitOnCharAux]
  | cons a as ih =>
    intro cur
    by_cases h : a = c
    · simp [splitOnCharAux, h]
    · simpa [splitOnCharAux, h] using ih (a :: cur)

theorem splitOnCharAux_join (c : Char) :
    ∀ (s cur : Str), joinSep c (splitOnCharAux c cur s) = cur.reverse ++ s := by
  intro s
  induction s with
  | nil => intro cur; simp [splitOnCharAux, joinSep]
  | cons a as ih =>
    intro cur
    by_cases h : a = c
    · rw [splitOnCharAux, if_pos h]
      rcases hsp : splitOnCharAux c [] as with _ | ⟨p, ps⟩
      · exact absurd hsp (splitOnCharAux_ne_nil c as [])
      · have hjoin : joinSep c (splitOnCharAux c [] as) = as := by
          simpa using ih []
        rw [hsp] at hjoin
        calc joinSep c (cur.reverse :: p :: ps)
            = cur.reverse ++ c :: joinSep c (p :: ps) := by rw [joinSep]; simp
          _ = cur.reverse ++ c :: as := by rw [hjoin]
          _ = cur.reverse ++ a :: as := by rw [h]
    · rw [splitOnCharAux, if_neg h, ih (a :: cur)]
      simp

theorem splitOnChar_join (c : Char) (s : Str) : joinSep c (splitOnChar c s) = s := by
  simpa using splitOnCharAux_join c s []

theorem contains_iff_mem (s : Str) (c : Char) : s.contains c = true ↔ c ∈ s :=
  List.elem_iff

theorem contains_false_iff (s : Str) (c : Char) : s.contains c = false ↔ c ∉ s := by
  rw [← contains_iff_mem]
  cases h : s.contains c <;> simp

theorem extractYear_ddmmyyyy (date : Str) (h : isDDMMYYYY date = true) :
    ∃ d0 m0 y0, splitOnChar '/' date = [d0, m0, y0] ∧ extractYear date = y0 ∧
      y0.length = 4 ∧ allDigits y0 = true := by
  unfold isDDMMYYYY at h
  rcases hsp : splitOnChar '/' date with _ | ⟨d0, _ | ⟨m0, _ | ⟨y0, _ | ⟨e, rest⟩⟩⟩⟩ <;>
    rw [hsp] at h <;> try simp at h
  obtain ⟨⟨⟨⟨⟨hd2, hm2⟩, hy4⟩, hdd⟩, hdm⟩, hdy⟩ := h
  have hj := splitOnChar_join '/' date
  rw [hsp] at hj
  have hcon : date.contains '/' = true := by
    rw [contains_iff_mem, ← hj]
    simp [joinSep]
  refine ⟨d0, m0, y0, rfl, ?_, hy4, hdy⟩
  unfold extractYear
  rw [hcon, hsp]
  simp [hy4]

theorem extractYear_yyyymmdd (date : Str) (h : isYYYYMMDD date = true) :
    ∃ y0 m0 d0, splitOnChar '-' date = [y0, m0, d0] ∧ extractYear date = y0 ∧
      y0.length = 4 ∧ allDigits y0 = true := by
  unfold isYYYYMMDD at h
  rcases hsp : splitOnChar '-' date with _ | ⟨y0, _ | ⟨m0, _ | ⟨d0, _ | ⟨e, rest⟩⟩⟩⟩ <;>
    rw [hsp] at h <;> try simp at h
  obtain ⟨⟨⟨⟨⟨hy4, hm2⟩, hd2⟩, hdy⟩, hdm⟩, hdd⟩ := h
  have hj := splitOnChar_join '-' date
  rw [hsp] at hj
  have hnos : date.contains '/' = false := by
    rw [contains_false_iff, ← hj]
    intro hmem
    simp only [joinSep, List.mem_append, List.mem_cons] at hmem
    rcases hmem with hy | hrest
    · have := List.all_eq_true.mp hdy _ hy
      simp at this
    · rcases hrest with heq | hy | hrest
      · cases heq
      · have := List.all_eq_true.mp hdm _ hy
        simp at this
      · rcases hrest with heq | hy
        · cases heq
        · have := List.all_eq_true.mp hdd _ hy
          simp at this
  have hdash : date.contains '-' = true := by
    rw [contains_iff_mem, ← hj]
    simp [joinSep]
  refine ⟨y0, m0, d0, rfl, ?_, hy4, hdy⟩
  unfold extractYear
  rw [hnos, hdash]
  simp only [Bool.false_eq_true, if_false, if_true]
  rw [← hj]
  show List.take 4 (y0 ++ '-' :: (m0 ++ '-' :: d0)) = y0
  exact List.take_left' hy4

theorem lookupCount_byYearDict (ms : List Meeting) (y : Str) (hy : y ≠ []) :
    lookupCount (byYearDict ms) y =
      ms.countP (fun m => decide (extractYear m.date = y)) := by
  rw [byYearDict, lookupCount_keysDict, List.countP_filter, List.countP_map]
  apply List.countP_congr
  intro m _
  by_cases h : extractYear m.date = y
  · simp [h, hy]
  · simp [h]

theorem byYearDict_keys_nonempty (ms : List Meeting) :
    ∀ k ∈ (byYearDict ms).map Prod.fst, k ≠ [] := by
  intro k hk
  rw [byYearDict, keys_keysDict] at hk
  have hsub := dedupeByAux_sublist (fun a => a)
    ((ms.map (fun m => extractYear m.date)).filter (fun y => !y.isEmpty)) []
  have hk2 := hsub.mem hk
  have := List.of_mem_filter hk2
  simpa using this

/-- A meeting whose date contains no digit at all: it cannot denote any year. -/
def mBad : Meeting :=
  ⟨"Minister C".toList, "ab-cd".toList, "Acme Corp".toList, [],
   "DeptX".toList, "ministerial".toList⟩

/-- C4 counterexample: the claim says every record whose date cannot be parsed
into a year is excluded from the by-year aggregate.  The code, however, counts
a record with the digit-free date "ab-cd" under the junk key "ab-c"
(`year = date[:4]` whenever the date merely contains a dash), so a list of
records none of whose dates contains a digit still yields a non-empty by-year
aggregate. -/
theorem by_year_counts_unparsable_date :
    ¬ (∀ ms : List Meeting,
        (∀ m ∈ ms, m.date.all (fun c => !c.isDigit) = true) →
          byYearDict ms = []) := by
  intro h
  have h2 := h [mBad] (by decide)
  have h3 : byYearDict [mBad] = [("ab-c".toList, 1)] := by decide
  rw [h2] at h3
  cases h3

/-- C4 (amended): the by-year aggregate of `search_uk_index` counts each
matched record under `extractYear` of its date: for `DD/MM/YYYY` dates this is
the four-digit year component, for `YYYY-MM-DD` dates the four-digit leading
year; the count stored for any non-empty key `y` is exactly the number of
matched records whose date extracts to `y`; records whose extraction is empty
are excluded from the aggregate (every aggregate key is non-empty); but a date
that merely contains a dash or slash may be counted under a key that is not a
year (see the counterexample); and all matched records remain in the returned
record list regardless. -/
theorem by_year_aggregate_characterization (term : Str) (ms : List Meeting) :
    (buildResult term ms).meetings = ms ∧
    (∀ m ∈ ms, isDDMMYYYY m.date = true →
      ∃ d0 m0 y0, splitOnChar '/' m.date = [d0, m0, y0] ∧
        extractYear m.date = y0 ∧ y0.length = 4 ∧ allDigits y0 = true) ∧
    (∀ m ∈ ms, isYYYYMMDD m.date = true →
      ∃ y0 m0 d0, splitOnChar '-' m.date = [y0, m0, d0] ∧
        extractYear m.date = y0 ∧ y0.length = 4 ∧ allDigits y0 = true) ∧
    (∀ y, y ≠ [] → lookupCount (byYearDict ms) y =
      ms.countP (fun m => decide (extractYear m.date = y))) ∧
    (∀ k ∈ (byYearDict ms).map Prod.fst, k ≠ []) := by
  refine ⟨rfl, ?_, ?_, ?_, byYearDict_keys_nonempty ms⟩
  · intro m _ h
    exact extractYear_ddmmyyyy m.date h
  · intro m _ h
    exact extractYear_yyyymmdd m.date h
  · intro y hy
    exact lookupCount_byYearDict ms y hy

/-- A meeting dated in 2025 and two meetings dated in 2023. -/
def mY2025 : Meeting :=
  ⟨"Minister D".toList, "01/01/2025".toList, "Acme Corp".toList, [],
   "DeptX".toList, "ministerial".toList⟩

def mY2023a : Meeting :=
  ⟨"Minister E".toList, "02/03/2023".toList, "Acme Corp".toList, [],
   "DeptX".toList, "ministerial".toList⟩

def mY2023b : Meeting :=
  ⟨"Minister F".toList, "04/05/2023".toList, "Acme Corp".toList, [],
   "DeptY".toList, "ministerial".toList⟩

theorem by_year_aggregate_characterization_witness :
    lookupCount (byYearDict [mY2025, mY2023a, mY2023b]) ("2023".toList) = 2 := by
  have h := (by_year_aggregate_characterization ("acme".toList)
    [mY2025, mY2023a, mY2023b]).2.2.2.1 ("2023".toList) (by decide)
  rw [h]
  decide

/-- C5 counterexample: the claim says all three aggregates are ordered
descending by count.  `by_year` is sorted with `key=lambda x: x[0],
reverse=True` — descending by YEAR KEY — so with one 2025 meeting and two
2023 meetings the by-year aggregate is [("2025", 1), ("2023", 2)], whose
counts are ascending. -/
theorem by_year_not_sorted_by_count :
    (buildResult ("acme".toList) [mY2025, mY2023a, mY2023b]).byYear =
      [("2025".toList, 1), ("2023".toList, 2)] ∧
    ¬ ((buildResult ("acme".toList) [mY2025, mY2023a, mY2023b]).byYear.Chain'
        (fun a b => b.2 ≤ a.2)) := by
  constructor
  · decide
  · intro hchain
    have heq : (buildResult ("acme".toList) [mY2025, mY2023a, mY2023b]).byYear =
        [("2025".toList, 1), ("2023".toList, 2)] := by decide
    rw [heq] at hchain
    have h2 := List.chain'_pair.mp hchain
    simp at h2

/-- C5 (amended): `by_minister` and `by_department` are sorted descending by
count, with ties between equal counts left in first-seen key order (the sort
is stable and the underlying dict lists keys in first-seen order); `by_year`
is instead sorted descending by its year key, not by count. -/
theorem aggregates_sort_characterization (term : Str) (ms : List Meeting) :
    (buildResult term ms).byMinister.Chain' (fun a b => b.2 ≤ a.2) ∧
    (buildResult term ms).byDepartment.Chain' (fun a b => b.2 ≤ a.2) ∧
    (∀ n, (buildResult term ms).byMinister.filter (fun x => decide (x.2 = n)) =
      (byMinisterDict ms).filter (fun x => decide (x.2 = n))) ∧
    (∀ n, (buildResult term ms).byDepartment.filter (fun x => decide (x.2 = n)) =
      (byDepartmentDict ms).filter (fun x => decide (x.2 = n))) ∧
    (byMinisterDict ms).map Prod.fst =
      dedupeBy id (ms.map (fun m => m.minister)) ∧
    (byDepartmentDict ms).map Prod.fst =
      dedupeBy id (ms.map (fun m => m.department)) ∧
    (buildResult term ms).byYear.Chain' (fun a b => strLe b.1 a.1 = true) := by
  refine ⟨chain_sortByCountDesc _, chain_sortByCountDesc _,
    fun n => filter_sortByCountDesc _ n, fun n => filter_sortByCountDesc _ n,
    ?_, ?_, chain_sortByKeyDesc _⟩
  · rw [byMinisterDict, keys_keysDict]
  · rw [byDepartmentDict, keys_keysDict]

theorem aggregates_sort_characterization_witness :
    (buildResult ("acme".toList) [mY2025]).byMinister.filter
        (fun x => decide (x.2 = 1)) =
      (byMinisterDict [mY2025]).filter (fun x => decide (x.2 = 1)) :=
  (aggregates_sort_characterization ("acme".toList) [mY2025]).2.2.1 1

/-!
## C6 / C7 — index loading and the zero-match vs. error behaviour

Source (src/eu_lobbying_core.py 790-916).  `load_uk_index` keeps a
process-wide cache `{"data": ..., "loaded": bool}`; on a miss it tries the
local snapshot file, then the remote URL, and returns `None` (never raising)
when both fail — in which case `loaded` stays `False`.  `search_uk_index`
returns `None` both when no index is available AND when the index is loaded
but the term matches nothing.
-/

/-- Errors a modelled Python function can raise. -/
inductive PyError where
  | nameError (nm : Str)
  | exception (msg : Str)
deriving DecidableEq, Repr

/-- The parsed snapshot JSON (metadata fields are irrelevant to the claims). -/
structure UkIndexData where
  meetings : List Meeting
deriving DecidableEq, Repr

/-- The module-level `_uk_index_cache` dict (src/eu_lobbying_core.py 790). -/
structure UkCache where
  data : Option UkIndexData
  loaded : Bool
deriving DecidableEq, Repr

/-- The outcome of the two I/O attempts of one call to `load_uk_index`:
`localFile = none` means the local file does not exist, `some none` that it
exists but cannot be read/parsed, `some (some d)` that it parses to `d`;
`remote = none` means the HTTP fetch fails or its body does not parse. -/
structure LoadEnv where
  localFile : Option (Option UkIndexData)
  remote : Option UkIndexData
deriving DecidableEq, Repr

/-- `load_uk_index` (src/eu_lobbying_core.py 794-823): returns the loaded
index (or `none`) and the updated cache. -/
def load_uk_index (cache : UkCache) (env : LoadEnv) :
    Option UkIndexData × UkCache :=
  if cache.loaded then (cache.data, cache)
  else
    match env.localFile with
    | some (some d) => (some d, ⟨some d, true⟩)
    | _ =>
      match env.remote with
      | some d => (some d, ⟨some d, true⟩)
      | none => (none, cache)

/-- `search_uk_index` (src/eu_lobbying_core.py 826-893): `None` when no index
is available; `None` when the term matches nothing; otherwise the assembled
result. -/
def search_uk_index (cache : UkCache) (env : LoadEnv) (term : Str) :
    Option SearchResult × UkCache :=
  match load_uk_index cache env with
  | (none, cache2) => (none, cache2)
  | (some idx, cache2) =>
    let found := searchMatches idx.meetings term
    if found.isEmpty then (none, cache2)
    else (some (buildResult term found), cache2)

/-- `search_uk_ministerial_meetings` (src/eu_lobbying_core.py 896-916): use
the index if requested and non-`None`, otherwise fall through to the live
search, whose outcome is `live`. -/
def search_uk_ministerial_meetings (cache : UkCache) (env : LoadEnv)
    (term : Str) (use_index : Bool)
    (live : Except PyError (Option SearchResult)) :
    Except PyError (Option SearchResult) × UkCache :=
  if use_index then
    match search_uk_index cache env term with
    | (some r, cache2) => (.ok (some r), cache2)
    | (none, cache2) => (live, cache2)
  else (live, cache)

/-- C6 (confirmed): when the cache is already loaded the call returns the
cached snapshot; otherwise a readable local snapshot wins, an absent or
unreadable local file falls through to the remote attempt, and if both fail
the call returns `none` (no exception — the function is total) leaving the
cache unchanged. -/
theorem load_uk_index_order (cache : UkCache) (env : LoadEnv) :
    (cache.loaded = true → load_uk_index cache env = (cache.data, cache)) ∧
    (cache.loaded = false →
      (∀ d, env.localFile = some (some d) →
        (load_uk_index cache env).1 = some d) ∧
      ((env.localFile = none ∨ env.localFile = some none) →
        (load_uk_index cache env).1 = env.remote) ∧
      ((env.localFile = none ∨ env.localFile = some none) → env.remote = none →
        load_uk_index cache env = (none, cache))) := by
  constructor
  · intro h
    simp [load_uk_index, h]
  · intro h
    refine ⟨?_, ?_, ?_⟩
    · intro d hd
      simp [load_uk_index, h, hd]
    · rintro (hl | hl) <;>
        rcases hr : env.remote with _ | d <;>
        simp [load_uk_index, h, hl, hr]
    · rintro (hl | hl) hr <;> simp [load_uk_index, h, hl, hr]

def idxShell : UkIndexData := ⟨[mShell]⟩

theorem load_uk_index_order_witness :
    (load_uk_index ⟨none, false⟩ ⟨some (some idxShell), none⟩).1 =
      some idxShell :=
  ((load_uk_index_order ⟨none, false⟩ ⟨some (some idxShell), none⟩).2 rfl).1
    idxShell rfl

def freshCache : UkCache := ⟨none, false⟩

/-- A loaded snapshot none of whose meetings mentions "shell". -/
def envZeroMatch : LoadEnv := ⟨some (some ⟨[mOther]⟩), none⟩

/-- No local file and a failing remote fetch: no index is loadable. -/
def envAllFail : LoadEnv := ⟨some none, none⟩

/-- C7 counterexample: the claim says a zero-match query against a loaded
index returns an empty result that is distinguishable from the result
produced when the index errored.  In fact `search_uk_index` returns `None`
in both situations — the very same value — so the two cases are not
distinguishable in the returned value. -/
theorem zero_match_indistinguishable_from_error :
    (search_uk_index freshCache envZeroMatch ("shell".toList)).1 = none ∧
    (search_uk_index freshCache envAllFail ("shell".toList)).1 = none ∧
    (search_uk_index freshCache envZeroMatch ("shell".toList)).1 =
      (search_uk_index freshCache envAllFail ("shell".toList)).1 := by
  refine ⟨by decide, by decide, by decide⟩

/-- C7 (amended): a term matching zero records of a loaded index makes
`search_uk_index` return `None` — the same value as when no index is
loadable — and in both cases `search_uk_ministerial_meetings` falls through
to the live search instead of returning an empty result.  No exception is
raised in either case (the functions are total). -/
theorem zero_match_returns_none (cache : UkCache) (env : LoadEnv) (term : Str) :
    (∀ idx, (load_uk_index cache env).1 = some idx →
      searchMatches idx.meetings term = [] →
      (search_uk_index cache env term).1 = none) ∧
    ((load_uk_index cache env).1 = none →
      (search_uk_index cache env term).1 = none) ∧
    (∀ live, (search_uk_index cache env term).1 = none →
      (search_uk_ministerial_meetings cache env term true live).1 = live) := by
  refine ⟨?_, ?_, ?_⟩
  · intro idx hload hmatch
    rcases hl : load_uk_index cache env with ⟨d, cache2⟩
    rw [hl] at hload
    simp only at hload
    subst hload
    simp [search_uk_index, hl, hmatch]
  · intro hload
    rcases hl : load_uk_index cache env with ⟨d, cache2⟩
    rw [hl] at hload
    simp only at hload
    subst hload
    simp [search_uk_index, hl]
  · intro live hnone
    rcases hs : search_uk_index cache env term with ⟨r, cache2⟩
    rw [hs] at hnone
    simp only at hnone
    subst hnone
    simp [search_uk_ministerial_meetings, hs]

theorem zero_match_returns_none_witness :
    (search_uk_ministerial_meetings freshCache envZeroMatch ("shell".toList)
      true (Except.ok none)).1 = Except.ok none :=
  (zero_match_returns_none freshCache envZeroMatch ("shell".toList)).2.2
    (Except.ok none) (by decide)

/-!
## C8 — multi-jurisdiction error handling

Two call paths exist.  The CLI `main` (src/eu_lobbying_core.py 2908-2961)
wraps every per-jurisdiction fetch in its own `try/except`, so an error
yields `None` for that jurisdiction only.  The Streamlit `run_search`
(src/app.py 86-257) has NO exception handler around any jurisdiction's
search: an exception raised by one searcher propagates out of `run_search`
and the remaining jurisdictions are never queried.  Each jurisdiction's
combined search-and-shape step is modelled as an environment-supplied
outcome (`.ok` data or `.error`); the payload type is irrelevant to the
control flow and is modelled as `Nat`.
-/

/-- One outcome per jurisdiction, in the order the code queries them. -/
structure RSEnv where
  eu : Except PyError (Option Nat)
  france : Except PyError (Option Nat)
  germany : Except PyError (Option Nat)
  uk : Except PyError (Option Nat)
  austria : Except PyError (Option Nat)
  catalonia : Except PyError (Option Nat)
  finland : Except PyError (Option Nat)
  slovenia : Except PyError (Option Nat)
deriving Repr

/-- Which jurisdictions the user selected. -/
structure Selected where
  eu : Bool
  france : Bool
  germany : Bool
  uk : Bool
  austria : Bool
  catalonia : Bool
  finland : Bool
  slovenia : Bool
deriving DecidableEq, Repr

/-- The `results` dict of `run_search` / the per-jurisdiction data of `main`. -/
structure RSResults where
  eu : Option Nat
  france : Option Nat
  germany : Option Nat
  uk : Option Nat
  austria : Option Nat
  catalonia : Option Nat
  finland : Option Nat
  slovenia : Option Nat
deriving DecidableEq, Repr

/-- `run_search` (src/app.py 86-257): the jurisdictions run in sequence with
no exception handler, so the first error aborts the whole call. -/
def run_search (sel : Selected) (env : RSEnv) : Except PyError RSResults := do
  let rEu ← if sel.eu then env.eu else pure none
  let rFr ← if sel.france then env.france else pure none
  let rDe ← if sel.germany then env.germany else pure none
  let rUk ← if sel.uk then env.uk else pure none
  let rAt ← if sel.austria then env.austria else pure none
  let rCa ← if sel.catalonia then env.catalonia else pure none
  let rFi ← if sel.finland then env.finland else pure none
  let rSl ← if sel.slovenia then env.slovenia else pure none
  pure ⟨rEu, rFr, rDe, rUk, rAt, rCa, rFi, rSl⟩

/-- Python `try: x = f() except: x = None` around one fetch. -/
def pyTry (x : Except PyError (Option Nat)) : Option Nat :=
  match x with
  | .ok v => v
  | .error _ => none

/-- The per-jurisdiction fetch stage of `main`
(src/eu_lobbying_core.py 2902-2961): sequential assignments, each protected
by its own `try/except`. -/
def mainFetch (sel : Selected) (env : RSEnv) : RSResults :=
  let r0 : RSResults := ⟨none, none, none, none, none, none, none, none⟩
  let r1 := { r0 with eu := if sel.eu then pyTry env.eu else none }
  let r2 := { r1 with france := if sel.france then pyTry env.france else none }
  let r3 := { r2 with germany := if sel.germany then pyTry env.germany else none }
  let r4 := { r3 with uk := if sel.uk then pyTry env.uk else none }
  let r5 := { r4 with austria := if sel.austria then pyTry env.austria else none }
  let r6 := { r5 with catalonia := if sel.catalonia then pyTry env.catalonia else none }
  let r7 := { r6 with finland := if sel.finland then pyTry env.finland else none }
  { r7 with slovenia := if sel.slovenia then pyTry env.slovenia else none }

def selAll : Selected := ⟨true, true, true, true, true, true, true, true⟩

/-- All jurisdictions selected; the EU searcher raises; every other
jurisdiction has data available. -/
def envEuDown : RSEnv :=
  ⟨.error (.exception ("eu down".toList)), .ok (some 1), .ok (some 2),
   .ok (some 3), .ok (some 4), .ok (some 5), .ok (some 6), .ok (some 7)⟩

/-- C8 counterexample: the claim says an error in any single jurisdiction is
caught and the other jurisdictions still proceed.  In `run_search` (app.py)
no per-jurisdiction handler exists: with the EU searcher raising, the whole
multi-jurisdiction query evaluates to that exception and no other
jurisdiction contributes anything — even though all seven others had data
(contrast `mainFetch`, which isolates the error). -/
theorem run_search_aborts_on_single_error :
    run_search selAll envEuDown = .error (.exception ("eu down".toList)) ∧
    mainFetch selAll envEuDown =
      ⟨none, some 1, some 2, some 3, some 4, some 5, some 6, some 7⟩ := by
  constructor
  · rfl
  · rfl

/-- C8 (amended): in the CLI `main` fetch stage every jurisdiction is wrapped
in its own `try/except`: an erroring jurisdiction contributes `none` and each
jurisdiction's entry depends only on its own selection flag and outcome, so
all other jurisdictions proceed to completion; `run_search` in app.py lacks
these handlers and propagates the first error (see the counterexample). -/
theorem main_fetch_isolates_errors (sel : Selected) (env : RSEnv) :
    (mainFetch sel env).eu = (if sel.eu then pyTry env.eu else none) ∧
    (mainFetch sel env).france = (if sel.france then pyTry env.france else none) ∧
    (mainFetch sel env).germany = (if sel.germany then pyTry env.germany else none) ∧
    (mainFetch sel env).uk = (if sel.uk then pyTry env.uk else none) ∧
    (mainFetch sel env).austria = (if sel.austria then pyTry env.austria else none) ∧
    (mainFetch sel env).catalonia = (if sel.catalonia then pyTry env.catalonia else none) ∧
    (mainFetch sel env).finland = (if sel.finland then pyTry env.finland else none) ∧
    (mainFetch sel env).slovenia = (if sel.slovenia then pyTry env.slovenia else none) ∧
    (∀ e : PyError, pyTry (.error e) = none) :=
  ⟨rfl, rfl, rfl, rfl, rfl, rfl, rfl, rfl, fun _ => rfl⟩

/-!
## C9 — the CSV row normalizer

Source (src/build_uk_index.py 131-191).  Each CSV row is a mapping from
column name to value; `row_lower` lowercases and strips the keys (later
duplicates overwrite earlier ones, as in a Python dict comprehension); each
logical field takes the first truthy value among its alias chain, then is
stripped; a row yields a meeting iff the organisation is non-empty and at
least one of minister/date is non-empty.  The parse loop raises nothing for
a malformed row — it is simply skipped (the embedding is a total function
into `Option`).
-/

/-- A raw CSV row: ordered (column name, value) pairs. -/
abbrev Row := List (Str × Str)

/-- An apostrophe, written by code point to keep the sources plain. -/
def apos : Char := Char.ofNat 39

/-- `row_lower = {k.lower().strip(): v for k, v in row.items() if k}`
(src/build_uk_index.py 147). -/
def rowLower (row : Row) : Row :=
  (row.filter (fun p => !p.1.isEmpty)).map (fun p => (strip (lowerStr p.1), p.2))

/-- `d.get(k, "")` on a dict built from pairs where later keys overwrite
earlier ones. -/
def dictGetStr (d : Row) (k : Str) : Str :=
  match d.reverse.find? (fun p => decide (p.1 = k)) with
  | some p => p.2
  | none => []

/-- Python `a or b or ... or ""`: the first truthy (non-empty) value. -/
def pyOrChain : List Str → Str
  | [] => []
  | x :: rest => if x.isEmpty then pyOrChain rest else x

def ministerKeys : List Str :=
  ["minister".toList, "name".toList, "official".toList,
   "minister".toList ++ apos :: "s name".toList]

def dateKeys : List Str :=
  ["date".toList, "date of meeting".toList, "meeting date".toList]

def orgKeys : List Str :=
  ["organisation".toList, "organizations".toList,
   "name of organisation".toList, "name of external organisation".toList,
   "external organisation".toList]

def purposeKeys : List Str :=
  ["purpose".toList, "purpose of meeting".toList]

/-- Resolve one logical field: first truthy alias value, then `.strip()`
(src/build_uk_index.py 150-178). -/
def fieldOf (row : Row) (keys : List Str) : Str :=
  strip (pyOrChain (keys.map (fun k => dictGetStr (rowLower row) k)))

/-- The per-row normalizer (src/build_uk_index.py 145-186): `some` meeting iff
`org and (minister or date)`, fresh records not yet tagged with a
department / meeting type. -/
def normalizeRow (row : Row) : Option Meeting :=
  let minister := fieldOf row ministerKeys
  let date := fieldOf row dateKeys
  let org := fieldOf row orgKeys
  let purpose := fieldOf row purposeKeys
  if !org.isEmpty && (!minister.isEmpty || !date.isEmpty) then
    some ⟨minister, date, org, purpose, [], []⟩
  else none

/-- `m["department"] = dept; m["meeting_type"] = ty`
(src/build_uk_index.py 251-254). -/
def tagMeeting (dept ty : Str) (m : Meeting) : Meeting :=
  { m with department := dept, meetingType := ty }

/-- The row loop of `download_and_parse_csv` over one document. -/
def parseCsvRows (rows : List Row) : List Meeting := rows.filterMap normalizeRow

/-- Steps 4-5 of `build_index`: parse every CSV, tag each record with its
department and type, concatenate, deduplicate (src/build_uk_index.py 241-267). -/
def builtRecords (csvs : List (Str × Str × List Row)) : List Meeting :=
  dedupe (csvs.flatMap (fun c => (parseCsvRows c.2.2).map (tagMeeting c.1 c.2.1)))

theorem strNotEmpty_iff (s : Str) : (!s.isEmpty) = true ↔ s ≠ [] := by
  cases s <;> simp

theorem normalizeRow_isSome_iff (row : Row) :
    (normalizeRow row).isSome ↔
      fieldOf row orgKeys ≠ [] ∧
        (fieldOf row ministerKeys ≠ [] ∨ fieldOf row dateKeys ≠ []) := by
  by_cases h : (!(fieldOf row orgKeys).isEmpty &&
      (!(fieldOf row ministerKeys).isEmpty ||
        !(fieldOf row dateKeys).isEmpty)) = true
  · have h2 := h
    simp only [Bool.and_eq_true, Bool.or_eq_true, strNotEmpty_iff] at h2
    simp [normalizeRow, h, h2]
  · have h2 : ¬ (fieldOf row orgKeys ≠ [] ∧
        (fieldOf row ministerKeys ≠ [] ∨ fieldOf row dateKeys ≠ [])) := by
      intro hc
      apply h
      simp only [Bool.and_eq_true, Bool.or_eq_true, strNotEmpty_iff]
      exact hc
    simp [normalizeRow, h, h2]

theorem normalizeRow_some_org (row : Row) (m : Meeting)
    (hm : normalizeRow row = some m) :
    m.organisation = fieldOf row orgKeys ∧ m.organisation ≠ [] := by
  by_cases h : (!(fieldOf row orgKeys).isEmpty &&
      (!(fieldOf row ministerKeys).isEmpty ||
        !(fieldOf row dateKeys).isEmpty)) = true
  · have h2 := h
    simp only [Bool.and_eq_true, Bool.or_eq_true, strNotEmpty_iff] at h2
    simp only [normalizeRow, h, if_true] at hm
    obtain rfl := (Option.some.inj hm).symm
    exact ⟨rfl, h2.1⟩
  · simp [normalizeRow, h] at hm

/-- C9 (confirmed): a row yields a record iff its resolved organisation field
is non-empty and at least one of the resolved minister/date fields is
non-empty (rows failing this yield nothing, and the normalizer is a total
function — no exception); every produced record carries the non-empty
organisation, so every record stored in the built index has a non-empty
organisation name. -/
theorem normalizer_requires_org_and_counterpart (row : Row)
    (csvs : List (Str × Str × List Row)) :
    ((normalizeRow row).isSome ↔
      fieldOf row orgKeys ≠ [] ∧
        (fieldOf row ministerKeys ≠ [] ∨ fieldOf row dateKeys ≠ [])) ∧
    (∀ m, normalizeRow row = some m →
      m.organisation = fieldOf row orgKeys ∧ m.organisation ≠ []) ∧
    (∀ m ∈ builtRecords csvs, m.organisation ≠ []) := by
  refine ⟨normalizeRow_isSome_iff row,
    fun m hm => normalizeRow_some_org row m hm, ?_⟩
  intro m hm
  unfold builtRecords at hm
  have hmem := (dedupeByAux_sublist dkey _ []).mem hm
  rcases List.mem_flatMap.mp hmem with ⟨c, hc, hmc⟩
  rcases List.mem_map.mp hmc with ⟨m0, hm0, rfl⟩
  rcases List.mem_filterMap.mp hm0 with ⟨row2, hrow2, hnorm⟩
  have horg := (normalizeRow_some_org row2 m0 hnorm).2
  simpa [tagMeeting] using horg

/-- A well-formed raw CSV row. -/
def rowGood : Row :=
  [("Minister".toList, "A Minister".toList),
   ("Date".toList, "01/02/2024".toList),
   ("Organisation".toList, "Shell UK".toList)]

theorem normalizer_requires_org_witness :
    (normalizeRow rowGood).isSome :=
  (normalizer_requires_org_and_counterpart rowGood []).1.mpr
    ⟨by decide, Or.inl (by decide)⟩

/-!
## C10 — the live search tail always raises `NameError` on success

Source (src/eu_lobbying_core.py 919-1102).  After the CSV scan,
`_search_uk_ministerial_meetings_live` returns `None` if nothing matched;
otherwise it deduplicates, sorts by date descending, aggregates, assembles
the result dict — and then evaluates `if include_senior_officials:` at line
1092.  Neither `include_senior_officials` nor `senior_officials_count` is
defined anywhere in the module (they appear only at lines 1092-1097), so the
lookup raises `NameError` and the assembled result is never returned.
-/

/-- Year extraction of the live path (src/eu_lobbying_core.py 1060-1066);
unlike the index path it takes `parts[0]` without checking its length. -/
def extractYearLive (date : Str) : Str :=
  if date.contains '/' then
    let parts := splitOnChar '/' date
    if parts.length = 3 then
      if (parts.getD 2 []).length = 4 then parts.getD 2 [] else parts.getD 0 []
    else []
  else if date.contains '-' then date.take 4
  else []

/-- The live path's `by_year` counter (src/eu_lobbying_core.py 1052-1071). -/
def byYearLiveDict (ms : List Meeting) : List (Str × Nat) :=
  keysDict ((ms.map (fun m => extractYearLive m.date)).filter (fun y => !y.isEmpty))

/-- Python `str.zfill(n)` for digit strings: left-pad with zeros to width. -/
def zfill (n : Nat) (s : Str) : Str := List.replicate (n - s.length) '0' ++ s

/-- `parse_date_for_sort` (src/eu_lobbying_core.py 1032-1045). -/
def parse_date_for_sort (date : Str) : Str :=
  if date.contains '/' && decide ((splitOnChar '/' date).length = 3) then
    let parts := splitOnChar '/' date
    parts.getD 2 [] ++ '-' :: zfill 2 (parts.getD 1 []) ++ '-' :: zfill 2 (parts.getD 0 [])
  else if date.contains '-' && decide (10 ≤ date.length) then date.take 10
  else "0000-00-00".toList

/-- `all_meetings.sort(key=parse_date_for_sort, reverse=True)`
(src/eu_lobbying_core.py 1047). -/
def sortByDateDesc (ms : List Meeting) : List Meeting :=
  ms.insertionSort
    (fun a b => strLe (parse_date_for_sort b.date) (parse_date_for_sort a.date) = true)

/-- The never-defined name looked up at src/eu_lobbying_core.py line 1092. -/
def nameIncludeSenior : Str := "include_senior_officials".toList

/-- The tail of `_search_uk_ministerial_meetings_live` after the CSV scan
(src/eu_lobbying_core.py 1016-1102), taking the collected raw matches as
input: return `None` when nothing matched, otherwise deduplicate, sort,
aggregate, assemble the result — and then hit the undefined name
`include_senior_officials`. -/
def live_tail (term : Str) (all_meetings : List Meeting) :
    Except PyError (Option SearchResult) :=
  if all_meetings.isEmpty then .ok none
  else
    let ms := sortByDateDesc (dedupe all_meetings)
    let _result : SearchResult :=
      { searchTerm := term
        meetings := ms
        meetingsCount := ms.length
        byMinister := sortByCountDesc (byMinisterDict ms)
        byDepartment := sortByCountDesc (byDepartmentDict ms)
        byYear := sortByKeyDesc (byYearLiveDict ms) }
    .error (.nameError nameIncludeSenior)

/-- C10 (confirmed): whenever the live UK search has at least one matching
meeting (equivalently, the deduplicated match list is non-empty), the
function raises `NameError` on the undefined `include_senior_officials`
instead of returning its assembled result; so the live fallback never
successfully returns a non-empty result. -/
theorem live_search_raises_nameerror (term : Str) (all_meetings : List Meeting)
    (h : all_meetings ≠ []) :
    live_tail term all_meetings = .error (.nameError nameIncludeSenior) := by
  have hne : all_meetings.isEmpty = false := by
    cases all_meetings
    · exact absurd rfl h
    · rfl
  simp [live_tail, hne]

theorem live_search_raises_nameerror_witness :
    live_tail ("shell".toList) [mShell] =
      .error (.nameError nameIncludeSenior) :=
  live_search_raises_nameerror ("shell".toList) [mShell] (by decide)
